import Mathlib

/-!
Verification of the allocation/rebalancing calculator of the Smart-DCA-Tool
repository (`src/investment_calculator.py`), shallowly embedded over `ℚ`.
Python dictionaries are modelled as insertion-ordered association lists
`List (String × _)`; Python's `round` (round-half-to-even) is modelled by
`pyRound`; the overflow-correction `while` loop is modelled by a fuelled
iteration together with a proof that the fuel (total share count + 1) always
suffices.  Fallible code (the `ZeroDivisionError` that Python's `/` raises on
a zero denominator, and a history backend whose `get_average_cost` may raise)
is modelled with `Except`.
-/

namespace SmartDCA

attribute [local semireducible] Rat.ofScientific Rat.add Rat.mul Rat.sub Rat.inv

/-- First-match lookup in an association list, mirroring Python dict
indexing and membership. -/
def lookup {α : Type} (m : List (String × α)) (k : String) : Option α :=
  (m.find? (fun p => p.1 = k)).map (fun p => p.2)

/-- Python `d.get(k, default)`. -/
def lookupD (m : List (String × ℚ)) (k : String) (d : ℚ) : ℚ :=
  (lookup m k).getD d

/-- Sum of the values of an association list (`sum(d.values())`). -/
def sumVals (m : List (String × ℚ)) : ℚ :=
  (m.map (fun p => p.2)).sum

/-- Python 3 `round` to an integer: round half to even. -/
def pyRound (q : ℚ) : ℤ :=
  let f : ℤ := ⌊q⌋
  let frac : ℚ := q - f
  if frac < 1/2 then f
  else if 1/2 < frac then f + 1
  else if f % 2 = 0 then f else f + 1

/-- The portfolio section of the configuration. -/
structure Portfolio where
  stock_weight : ℚ
  crypto_weight : ℚ
  stock_allocation : List (String × ℚ)
  crypto_allocation : List (String × ℚ)
  deriving DecidableEq

/-- The limits section of the configuration. -/
structure Limits where
  weekly_usd_limit : ℚ
  weekly_tao_limit : ℚ
  deriving DecidableEq

/-- The crash-detection section of the configuration. -/
structure CrashConfig where
  stock_lookback_days : ℕ
  crypto_lookback_days : ℕ
  level1_threshold : ℚ
  level1_multiplier : ℚ
  level2_threshold : ℚ
  level2_multiplier : ℚ
  level3_threshold : ℚ
  level3_multiplier : ℚ
  deriving DecidableEq

/-- The configuration handed to `InvestmentCalculator.__init__`. -/
structure Config where
  portfolio : Portfolio
  limits : Limits
  crash_detection : CrashConfig
  deriving DecidableEq

/-- One entry of the `investments` dict built by
`_calculate_stock_allocation`: `{'amount', 'ratio', 'price', 'shares'}`. -/
structure StockLine where
  amount : ℚ
  ratio : ℚ
  price : ℚ
  shares : ℤ
  deriving DecidableEq

/-- One entry of the dict built by `_calculate_crypto_allocation`:
`{'amount', 'ratio', 'price', 'quantity'}`. -/
structure CryptoLine where
  amount : ℚ
  ratio : ℚ
  price : ℚ
  quantity : ℚ
  deriving DecidableEq

/-- Sum of the `amount` fields (`sum(data['amount'] for data in
investments.values())`). -/
def sumAmounts (inv : List (String × StockLine)) : ℚ :=
  (inv.map (fun p => p.2.amount)).sum

/-- First round of `_calculate_stock_allocation` (lines 72–87): for each
configured symbol that is present in the price map, allocate
`budget * ratio / total_allocation`, round to whole shares with a one-share
floor; symbols with no price are skipped. -/
def firstRound (budget total_allocation : ℚ) (prices : List (String × ℚ)) :
    List (String × ℚ) → List (String × StockLine)
  | [] => []
  | (symbol, ratio) :: rest =>
    match lookup prices symbol with
    | some price =>
      let target_amount := budget * (ratio / total_allocation)
      let target_shares := target_amount / price
      let shares : ℤ := max 1 (pyRound target_shares)
      let actual_amount := shares * price
      (symbol, ⟨actual_amount, ratio, price, shares⟩) ::
        firstRound budget total_allocation prices rest
    | none => firstRound budget total_allocation prices rest

/-- The scan of lines 95–101: running best candidate (symbol of highest price
seen so far among those with more than one share; strict `>` keeps the first
of equally-priced candidates, matching dict iteration order). -/
def findMaxAux : List (String × StockLine) → Option String → ℚ → Option String
  | [], best, _ => best
  | p :: rest, best, best_price =>
    if 1 < p.2.shares ∧ best_price < p.2.price then
      findMaxAux rest (some p.1) p.2.price
    else
      findMaxAux rest best best_price

/-- Lines 95–101: the symbol with the highest price among those holding more
than one share (`max_price` starts at 0, so only positively-priced entries
qualify). -/
def findMaxPriceSymbol (inv : List (String × StockLine)) : Option String :=
  findMaxAux inv none 0

/-- Lines 104–108: decrement the chosen symbol's share count by one and
recompute its amount. -/
def decrementSymbol (inv : List (String × StockLine)) (s : String) :
    List (String × StockLine) :=
  inv.map (fun p =>
    if p.1 = s then
      (p.1, { p.2 with shares := p.2.shares - 1,
                       amount := (p.2.shares - 1) * p.2.price })
    else p)

/-- Total share count, the termination measure of the overflow-correction
loop. -/
def sharesMeasure (inv : List (String × StockLine)) : ℕ :=
  (inv.map (fun p => p.2.shares.toNat)).sum

/-- The `while total_cost > max_budget` loop of lines 93–111, iterated under
explicit fuel (each productive iteration strictly decreases
`sharesMeasure`, so `sharesMeasure inv + 1` units of fuel always suffice;
see `loopFuel_exit`). -/
def loopFuel (max_budget : ℚ) : ℕ → List (String × StockLine) →
    List (String × StockLine)
  | 0, inv => inv
  | fuel + 1, inv =>
    if max_budget < sumAmounts inv then
      match findMaxPriceSymbol inv with
      | some s => loopFuel max_budget fuel (decrementSymbol inv s)
      | none => inv
    else inv

/-- The function `_calculate_stock_allocation` (lines 62–113). -/
def calculate_stock_allocation (portfolio : Portfolio) (budget : ℚ)
    (prices : List (String × ℚ)) : List (String × StockLine) :=
  let allocations := portfolio.stock_allocation
  let total_allocation := sumVals allocations
  let max_budget := budget * 1.5
  let investments := firstRound budget total_allocation prices allocations
  loopFuel max_budget (sharesMeasure investments + 1) investments

/-- Loop body of `_calculate_crypto_allocation` (lines 120–128). -/
def cryptoGo (budget : ℚ) (prices : List (String × ℚ)) :
    List (String × ℚ) → List (String × CryptoLine)
  | [] => []
  | (symbol, ratio) :: rest =>
    match lookup prices symbol with
    | some price =>
      let amount := budget * ratio
      (symbol, ⟨amount, ratio, price, amount / price⟩) :: cryptoGo budget prices rest
    | none => cryptoGo budget prices rest

/-- The function `_calculate_crypto_allocation` (lines 115–130): proportional
fractional allocation; symbols with no price are skipped. -/
def calculate_crypto_allocation (portfolio : Portfolio) (budget : ℚ)
    (prices : List (String × ℚ)) : List (String × CryptoLine) :=
  cryptoGo budget prices portfolio.crypto_allocation

/-- The dict returned by `calculate_weekly_investment` (lines 53–60). -/
structure Plan where
  stock_total : ℚ
  crypto_total : ℚ
  crypto_tao_amount : ℚ
  stocks : List (String × StockLine)
  cryptos : List (String × CryptoLine)
  total_budget : ℚ
  deriving DecidableEq

/-- The function `calculate_weekly_investment` (lines 21–60). -/
def calculate_weekly_investment (config : Config)
    (stock_prices crypto_prices : List (String × ℚ)) (tao_price : ℚ) : Plan :=
  let weekly_usd_limit := config.limits.weekly_usd_limit
  let weekly_tao_limit := config.limits.weekly_tao_limit
  let stock_investments :=
    calculate_stock_allocation config.portfolio weekly_usd_limit stock_prices
  let actual_stock_cost := sumAmounts stock_investments
  let stock_weight := config.portfolio.stock_weight
  let crypto_weight := config.portfolio.crypto_weight
  let target_crypto_budget := actual_stock_cost * (crypto_weight / stock_weight)
  let tao_usd_value := weekly_tao_limit * tao_price
  let actual_crypto_budget := min target_crypto_budget tao_usd_value
  let crypto_investments :=
    calculate_crypto_allocation config.portfolio actual_crypto_budget crypto_prices
  { stock_total := actual_stock_cost
    crypto_total := actual_crypto_budget
    crypto_tao_amount := actual_crypto_budget / tao_price
    stocks := stock_investments
    cryptos := crypto_investments
    total_budget := actual_stock_cost + actual_crypto_budget }

/-- First loop of `calculate_rebalancing_adjustment` (lines 149–164), building
the `adjustments` dict in target-iteration order.  Python computes
`current_value / (total_portfolio_value - weekly_budget)` whenever
`total_portfolio_value > 0`; a zero denominator raises `ZeroDivisionError`,
modelled as `.error`. -/
def rebalanceFirstPass (total_portfolio_value : ℚ)
    (current_portfolio : List (String × ℚ)) (weekly_budget : ℚ) :
    List (String × ℚ) → Except String (List (String × ℚ))
  | [] => .ok []
  | (symbol, target_ratio) :: rest =>
    let target_value := total_portfolio_value * target_ratio
    let current_value := lookupD current_portfolio symbol 0
    if 0 < total_portfolio_value then
      if total_portfolio_value - weekly_budget = 0 then
        .error "ZeroDivisionError"
      else
        let current_ratio := current_value / (total_portfolio_value - weekly_budget)
        let deviation := |current_ratio - target_ratio|
        if 0.05 < deviation then
          let needed_adjustment := target_value - current_value
          let max_adjustment := weekly_budget * 0.5
          let adjustment := min max_adjustment (max 0 needed_adjustment)
          match rebalanceFirstPass total_portfolio_value current_portfolio
              weekly_budget rest with
          | .ok r => .ok ((symbol, adjustment) :: r)
          | .error e => .error e
        else
          rebalanceFirstPass total_portfolio_value current_portfolio
            weekly_budget rest
    else
      rebalanceFirstPass total_portfolio_value current_portfolio
        weekly_budget rest

/-- Python dict update `d[k] = d.get(k, 0) + v`: updates the existing entry in
place, or appends a new one. -/
def dictAdd (d : List (String × ℚ)) (k : String) (v : ℚ) :
    List (String × ℚ) :=
  if (lookup d k).isSome then
    d.map (fun p => if p.1 = k then (p.1, p.2 + v) else p)
  else d ++ [(k, v)]

/-- Second loop of `calculate_rebalancing_adjustment` (lines 173–175):
distribute the remaining budget over the target ratios on top of the
existing adjustments. -/
def rebalanceSecondPass (adjustments : List (String × ℚ))
    (remaining_budget : ℚ) : List (String × ℚ) → List (String × ℚ)
  | [] => adjustments
  | (symbol, target_ratio) :: rest =>
    rebalanceSecondPass (dictAdd adjustments symbol
      (remaining_budget * target_ratio)) remaining_budget rest

/-- The function `calculate_rebalancing_adjustment` (lines 132–181). -/
def calculate_rebalancing_adjustment (current_portfolio : List (String × ℚ))
    (target_allocation : List (String × ℚ)) (weekly_budget : ℚ) :
    Except String (List (String × ℚ)) :=
  let total_portfolio_value := sumVals current_portfolio + weekly_budget
  match rebalanceFirstPass total_portfolio_value current_portfolio
      weekly_budget target_allocation with
  | .error e => .error e
  | .ok adjustments =>
    if adjustments ≠ [] then
      let total_adjustments := sumVals adjustments
      let remaining_budget := weekly_budget - total_adjustments
      if 0 < remaining_budget then
        .ok (rebalanceSecondPass adjustments remaining_budget target_allocation)
      else .ok adjustments
    else
      .ok (target_allocation.map (fun p => (p.1, weekly_budget * p.2)))

/-- A history backend (`history_manager.get_average_cost`): per symbol it
either returns an optional average cost or raises (`.error`). -/
def HistoryBackend : Type := String → Except Unit (Option ℚ)

/-- The function `_get_average_price` (lines 233–251): a positive recorded average cost
wins; a missing or non-positive one degrades to the synthetic peak
`current_price * 1.15`; an exception from the backend is caught and turned
into `None`. -/
def get_average_price (symbol : String) (current_price : ℚ)
    (history : HistoryBackend) : Option ℚ :=
  match history symbol with
  | .error _ => none
  | .ok avg_cost =>
    match avg_cost with
    | some c => if c ≠ 0 ∧ 0 < c then some c else some (current_price * 1.15)
    | none => some (current_price * 1.15)

/-- The function `_determine_crash_level` (lines 253–263): thresholds checked
from level 3 down to level 1. -/
def determine_crash_level (cc : CrashConfig) (drop_percent : ℚ) : ℕ × ℚ :=
  if cc.level3_threshold ≤ drop_percent then (3, cc.level3_multiplier)
  else if cc.level2_threshold ≤ drop_percent then (2, cc.level2_multiplier)
  else if cc.level1_threshold ≤ drop_percent then (1, cc.level1_multiplier)
  else (0, 1.0)

/-- The function `_get_base_allocation` (lines 265–272). -/
def get_base_allocation (portfolio : Portfolio) (symbol : String) : ℚ :=
  match lookup portfolio.stock_allocation symbol with
  | some r => r * portfolio.stock_weight
  | none =>
    match lookup portfolio.crypto_allocation symbol with
    | some r => r * portfolio.crypto_weight
    | none => 0

/-- The hard-coded equity symbol list of lines 199 and 276. -/
def stockSymbols : List String := ["QQQ", "VOO", "GLDM"]

/-- The function `_get_weekly_budget` (lines 274–281): equities get the USD limit; every
other symbol gets `weekly_tao_limit * 500`, with 500 a hard-coded assumed
TAO price. -/
def get_weekly_budget (limits : Limits) (symbol : String) : ℚ :=
  if symbol ∈ stockSymbols then limits.weekly_usd_limit
  else limits.weekly_tao_limit * 500

/-- One entry of the dict returned by `detect_crash_opportunities`
(lines 221–229). -/
structure Opportunity where
  current_price : ℚ
  avg_price : ℚ
  drop_percent : ℚ
  crash_level : ℕ
  multiplier : ℚ
  base_amount : ℚ
  suggested_amount : ℚ
  deriving DecidableEq

/-- Loop body of `detect_crash_opportunities` (lines 197–229): for each
priced symbol, resolve an average price (possibly `none` when the backend
raised), keep the symbol only when that price is positive and the drop
reaches at least level 1. -/
def detectGo (config : Config) (history : HistoryBackend) :
    List (String × ℚ) → List (String × Opportunity)
  | [] => []
  | (symbol, current_price) :: rest =>
    match get_average_price symbol current_price history with
    | some avg_price =>
      if 0 < avg_price then
        let drop_percent := (avg_price - current_price) / avg_price
        let lm := determine_crash_level config.crash_detection drop_percent
        if 0 < lm.1 then
          let base_allocation := get_base_allocation config.portfolio symbol
          let weekly_budget := get_weekly_budget config.limits symbol
          let base_amount := weekly_budget * base_allocation
          (symbol, { current_price := current_price
                     avg_price := avg_price
                     drop_percent := drop_percent * 100
                     crash_level := lm.1
                     multiplier := lm.2
                     base_amount := base_amount
                     suggested_amount := base_amount * lm.2 }) ::
            detectGo config history rest
        else detectGo config history rest
      else detectGo config history rest
    | none => detectGo config history rest

/-- The function `detect_crash_opportunities` (lines 183–231). -/
def detect_crash_opportunities (config : Config)
    (current_prices : List (String × ℚ)) (history : HistoryBackend) :
    List (String × Opportunity) :=
  detectGo config history current_prices

/-- Spec-side definition (from the spec's words, for claim C7): the sum of
configured ratios restricted to symbols present in the price map.  The
source instead sums all configured ratios (`sum(allocations.values())`,
line 68). -/
def ratioSumPriced (allocations prices : List (String × ℚ)) : ℚ :=
  sumVals (allocations.filter (fun p => (lookup prices p.1).isSome))

/-- Example crash-detection configuration: the thresholds and multipliers of
the spec example (10 percent × 1.5, 20 percent × 2.0, 30 percent × 3.0). -/
def ccEx : CrashConfig where
  stock_lookback_days := 30
  crypto_lookback_days := 14
  level1_threshold := 0.10
  level1_multiplier := 1.5
  level2_threshold := 0.20
  level2_multiplier := 2.0
  level3_threshold := 0.30
  level3_multiplier := 3.0

/-- Example portfolio: the basket and weights of the spec example. -/
def pfEx : Portfolio where
  stock_weight := 0.6
  crypto_weight := 0.4
  stock_allocation := [("QQQ", 0.5), ("VOO", 0.3), ("GLDM", 0.2)]
  crypto_allocation := [("BTC", 0.4), ("ETH", 0.3), ("SOL", 0.2), ("BNB", 0.1)]

/-- Example limits: 2000 USD per week, 10 TAO per week. -/
def limitsEx : Limits where
  weekly_usd_limit := 2000
  weekly_tao_limit := 10

/-- Example configuration combining the pieces above. -/
def cfgEx : Config where
  portfolio := pfEx
  limits := limitsEx
  crash_detection := ccEx

/-- Example stock prices of the spec worked example. -/
def stockPricesEx : List (String × ℚ) := [("QQQ", 350), ("VOO", 420), ("GLDM", 36)]

/-- A one-stock portfolio whose single symbol costs more than the allowed
overshoot; exhibits the terminal all-one-share state of the overflow loop. -/
def pf1 : Portfolio where
  stock_weight := 0.6
  crypto_weight := 0.4
  stock_allocation := [("A", 1)]
  crypto_allocation := []

/-- A two-stock portfolio of which only symbol A will be priced. -/
def pf2 : Portfolio where
  stock_weight := 0.6
  crypto_weight := 0.4
  stock_allocation := [("A", 0.5), ("B", 0.5)]
  crypto_allocation := [("BTC", 1)]

/-- Configuration around `pf2`. -/
def cfg2 : Config where
  portfolio := pf2
  limits := limitsEx
  crash_detection := ccEx

/-- A history backend whose `get_average_cost` always raises. -/
def histErr : HistoryBackend := fun _ => .error ()

/-- A history backend that always reports no recorded history. -/
def histNone : HistoryBackend := fun _ => .ok none

/-- A concrete overflow-loop state: X holds 3 shares at price 300, Y holds
1 share at price 100. -/
def invC10 : List (String × StockLine) :=
  [("X", ⟨900, 1, 300, 3⟩), ("Y", ⟨100, 1, 100, 1⟩)]

/-- A positive-valued price map gives positive looked-up prices. -/
theorem lookup_pos {prices : List (String × ℚ)} (hpos : ∀ q ∈ prices, 0 < q.2)
    {s : String} {v : ℚ} (h : lookup prices s = some v) : 0 < v := by
  unfold lookup at h
  cases hf : prices.find? (fun p => p.1 = s) with
  | none => rw [hf] at h; simp at h
  | some p =>
    rw [hf] at h
    simp only [Option.map_some'] at h
    injection h with h
    exact h ▸ hpos p (List.mem_of_find?_eq_some hf)

/-- Once a candidate is recorded, the scan never returns `none`. -/
theorem findMaxAux_isSome (l : List (String × StockLine)) (x : String) (bp : ℚ) :
    (findMaxAux l (some x) bp).isSome := by
  induction l generalizing x bp with
  | nil => rfl
  | cons p rest ih =>
    unfold findMaxAux
    split
    · exact ih p.1 p.2.price
    · exact ih x bp

/-- If the scan finds nothing, no entry both holds more than one share and
beats the running price bound. -/
theorem findMaxAux_none {l : List (String × StockLine)} {bp : ℚ}
    (h : findMaxAux l none bp = none) :
    ∀ p ∈ l, ¬(1 < p.2.shares ∧ bp < p.2.price) := by
  induction l generalizing bp with
  | nil => intro p hp; cases hp
  | cons q rest ih =>
    intro p hp
    unfold findMaxAux at h
    by_cases hc : 1 < q.2.shares ∧ bp < q.2.price
    · rw [if_pos hc] at h
      have hs := findMaxAux_isSome rest q.1 q.2.price
      rw [h] at hs
      cases hs
    · rw [if_neg hc] at h
      cases hp with
      | head => exact hc
      | tail _ hmem => exact ih h p hmem

/-- If no reducible symbol was found, every positively-priced entry holds at
most one share. -/
theorem findMaxPriceSymbol_none {inv : List (String × StockLine)}
    (h : findMaxPriceSymbol inv = none) :
    ∀ p ∈ inv, 0 < p.2.price → p.2.shares ≤ 1 := by
  intro p hp hpr
  have hn := findMaxAux_none h p hp
  by_contra hgt
  exact hn ⟨by omega, hpr⟩

/-- A found symbol names an entry of the list holding more than one share. -/
theorem findMaxAux_mem {l : List (String × StockLine)} {best : Option String}
    {bp : ℚ} {s : String} (h : findMaxAux l best bp = some s) :
    best = some s ∨ ∃ p ∈ l, p.1 = s ∧ 1 < p.2.shares := by
  induction l generalizing best bp with
  | nil => exact Or.inl h
  | cons q rest ih =>
    unfold findMaxAux at h
    by_cases hc : 1 < q.2.shares ∧ bp < q.2.price
    · rw [if_pos hc] at h
      rcases ih h with heq | ⟨p, hp, hps⟩
      · injection heq with heq
        exact Or.inr ⟨q, List.mem_cons_self q rest, heq, hc.1⟩
      · exact Or.inr ⟨p, List.mem_cons_of_mem _ hp, hps⟩
    · rw [if_neg hc] at h
      rcases ih h with heq | ⟨p, hp, hps⟩
      · exact Or.inl heq
      · exact Or.inr ⟨p, List.mem_cons_of_mem _ hp, hps⟩

/-- The symbol selected by lines 95–101 is in the dict with more than one
share. -/
theorem findMaxPriceSymbol_mem {inv : List (String × StockLine)} {s : String}
    (h : findMaxPriceSymbol inv = some s) :
    ∃ p ∈ inv, p.1 = s ∧ 1 < p.2.shares := by
  rcases findMaxAux_mem h with heq | hex
  · cases heq
  · exact hex

/-- Unfolding of `decrementSymbol` over a cons cell. -/
theorem decrementSymbol_cons (p : String × StockLine)
    (l : List (String × StockLine)) (s : String) :
    decrementSymbol (p :: l) s =
      (if p.1 = s then
        (p.1, { p.2 with shares := p.2.shares - 1,
                         amount := (p.2.shares - 1) * p.2.price })
      else p) :: decrementSymbol l s := by
  simp [decrementSymbol]

/-- Unfolding of `sharesMeasure` over a cons cell. -/
theorem sharesMeasure_cons (p : String × StockLine)
    (l : List (String × StockLine)) :
    sharesMeasure (p :: l) = p.2.shares.toNat + sharesMeasure l := by
  simp [sharesMeasure]

/-- Decrementing never increases the total share count. -/
theorem sharesMeasure_decrement_le (inv : List (String × StockLine))
    (s : String) :
    sharesMeasure (decrementSymbol inv s) ≤ sharesMeasure inv := by
  induction inv with
  | nil => exact le_refl _
  | cons p rest ih =>
    rw [decrementSymbol_cons, sharesMeasure_cons, sharesMeasure_cons]
    by_cases h : p.1 = s
    · rw [if_pos h]
      dsimp only
      omega
    · rw [if_neg h]
      omega

/-- Decrementing a symbol that holds more than one share strictly decreases
the total share count: the loop measure of claim C10. -/
theorem sharesMeasure_decrement_lt {inv : List (String × StockLine)}
    {s : String} (hex : ∃ p ∈ inv, p.1 = s ∧ 1 < p.2.shares) :
    sharesMeasure (decrementSymbol inv s) < sharesMeasure inv := by
  induction inv with
  | nil => rcases hex with ⟨p, hp, _⟩; cases hp
  | cons q rest ih =>
    rw [decrementSymbol_cons, sharesMeasure_cons, sharesMeasure_cons]
    rcases hex with ⟨p, hp, hps, hsh⟩
    cases hp with
    | head =>
      rw [if_pos hps]
      dsimp only
      have hle := sharesMeasure_decrement_le rest s
      omega
    | tail _ hmem =>
      have hlt := ih ⟨p, hmem, hps, hsh⟩
      by_cases h : q.1 = s
      · rw [if_pos h]
        dsimp only
        omega
      · rw [if_neg h]
        omega

/-- Decrementing preserves the key sequence of the dict. -/
theorem decrementSymbol_keys (inv : List (String × StockLine)) (s : String) :
    (decrementSymbol inv s).map Prod.fst = inv.map Prod.fst := by
  induction inv with
  | nil => rfl
  | cons p rest ih =>
    rw [decrementSymbol_cons, List.map_cons, List.map_cons, ih]
    by_cases h : p.1 = s
    · rw [if_pos h]
    · rw [if_neg h]

/-- Decrementing preserves positivity of the stored prices. -/
theorem decrementSymbol_price_pos {inv : List (String × StockLine)}
    {s : String} (hpr : ∀ p ∈ inv, 0 < p.2.price) :
    ∀ p ∈ decrementSymbol inv s, 0 < p.2.price := by
  intro p hp
  unfold decrementSymbol at hp
  rcases List.mem_map.1 hp with ⟨p0, hp0, rfl⟩
  by_cases h : p0.1 = s
  · rw [if_pos h]
    exact hpr p0 hp0
  · rw [if_neg h]
    exact hpr p0 hp0

/-- With unique keys, decrementing the selected over-one-share symbol keeps
every share count at one or more. -/
theorem decrementSymbol_shares_ge_one {inv : List (String × StockLine)}
    {s : String} (hnd : (inv.map Prod.fst).Nodup)
    (hge : ∀ p ∈ inv, 1 ≤ p.2.shares)
    (hex : ∃ p ∈ inv, p.1 = s ∧ 1 < p.2.shares) :
    ∀ p ∈ decrementSymbol inv s, 1 ≤ p.2.shares := by
  rcases hex with ⟨q, hq, hqs, hqsh⟩
  intro p hp
  unfold decrementSymbol at hp
  rcases List.mem_map.1 hp with ⟨p0, hp0, rfl⟩
  by_cases h : p0.1 = s
  · rw [if_pos h]
    have heq : p0 = q :=
      List.inj_on_of_nodup_map hnd hp0 hq (h.trans hqs.symm)
    dsimp only
    rw [heq]
    omega
  · rw [if_neg h]
    exact hge p0 hp0

/-- The overflow-correction loop preserves the key sequence of the dict. -/
theorem loopFuel_keys (mb : ℚ) (fuel : ℕ) (inv : List (String × StockLine)) :
    (loopFuel mb fuel inv).map Prod.fst = inv.map Prod.fst := by
  induction fuel generalizing inv with
  | zero => rfl
  | succ n ih =>
    rw [loopFuel]
    by_cases hb : mb < sumAmounts inv
    · rw [if_pos hb]
      cases h : findMaxPriceSymbol inv with
      | some s => rw [ih, decrementSymbol_keys]
      | none => rfl
    · rw [if_neg hb]

/-- The overflow-correction loop preserves positivity of the stored prices. -/
theorem loopFuel_price_pos (mb : ℚ) (fuel : ℕ) :
    ∀ inv : List (String × StockLine), (∀ p ∈ inv, 0 < p.2.price) →
      ∀ p ∈ loopFuel mb fuel inv, 0 < p.2.price := by
  induction fuel with
  | zero => intro inv hpr; exact hpr
  | succ n ih =>
    intro inv hpr
    rw [loopFuel]
    by_cases hb : mb < sumAmounts inv
    · rw [if_pos hb]
      cases h : findMaxPriceSymbol inv with
      | some s => exact ih _ (decrementSymbol_price_pos hpr)
      | none => exact hpr
    · rw [if_neg hb]
      exact hpr

/-- With unique keys, the overflow-correction loop keeps every share count at
one or more (claim C9's loop invariant). -/
theorem loopFuel_shares_ge_one (mb : ℚ) (fuel : ℕ) :
    ∀ inv : List (String × StockLine), (inv.map Prod.fst).Nodup →
      (∀ p ∈ inv, 1 ≤ p.2.shares) →
      ∀ p ∈ loopFuel mb fuel inv, 1 ≤ p.2.shares := by
  induction fuel with
  | zero => intro inv _ hge; exact hge
  | succ n ih =>
    intro inv hnd hge
    rw [loopFuel]
    by_cases hb : mb < sumAmounts inv
    · rw [if_pos hb]
      cases h : findMaxPriceSymbol inv with
      | some s =>
        have hex := findMaxPriceSymbol_mem h
        refine ih _ ?_ (decrementSymbol_shares_ge_one hnd hge hex)
        rw [decrementSymbol_keys]
        exact hnd
      | none => exact hge
    · rw [if_neg hb]
      exact hge

/-- Given fuel exceeding the total share count, the loop reaches a genuine
exit state: either the total cost is within the cap or no reducible symbol
remains. -/
theorem loopFuel_exit (mb : ℚ) (fuel : ℕ) :
    ∀ inv : List (String × StockLine), sharesMeasure inv < fuel →
      sumAmounts (loopFuel mb fuel inv) ≤ mb ∨
        findMaxPriceSymbol (loopFuel mb fuel inv) = none := by
  induction fuel with
  | zero => intro inv h; omega
  | succ n ih =>
    intro inv hfuel
    rw [loopFuel]
    by_cases hb : mb < sumAmounts inv
    · rw [if_pos hb]
      cases h : findMaxPriceSymbol inv with
      | some s =>
        have hex := findMaxPriceSymbol_mem h
        have hlt := sharesMeasure_decrement_lt hex
        exact ih _ (by omega)
      | none => exact Or.inr h
    · rw [if_neg hb]
      exact Or.inl (le_of_not_lt hb)

/-- Every line produced by the first allocation round holds at least one
share. -/
theorem firstRound_shares_ge_one (b t : ℚ) (prices : List (String × ℚ)) :
    ∀ alloc : List (String × ℚ), ∀ p ∈ firstRound b t prices alloc,
      1 ≤ p.2.shares := by
  intro alloc
  induction alloc with
  | nil => intro p hp; cases hp
  | cons q rest ih =>
    intro p hp
    rw [firstRound] at hp
    rcases q with ⟨symbol, ratio⟩
    cases h : lookup prices symbol with
    | some price =>
      rw [h] at hp
      cases hp with
      | head => exact le_max_left 1 _
      | tail _ hmem => exact ih p hmem
    | none =>
      rw [h] at hp
      exact ih p hp

/-- If every configured-and-priced symbol has a positive price, every line of
the first allocation round stores a positive price. -/
theorem firstRound_price_pos (b t : ℚ) (prices : List (String × ℚ))
    (hpos : ∀ q ∈ prices, 0 < q.2) :
    ∀ alloc : List (String × ℚ), ∀ p ∈ firstRound b t prices alloc,
      0 < p.2.price := by
  intro alloc
  induction alloc with
  | nil => intro p hp; cases hp
  | cons q rest ih =>
    intro p hp
    rw [firstRound] at hp
    rcases q with ⟨symbol, ratio⟩
    cases h : lookup prices symbol with
    | some price =>
      rw [h] at hp
      cases hp with
      | head => exact lookup_pos hpos h
      | tail _ hmem => exact ih p hmem
    | none =>
      rw [h] at hp
      exact ih p hp

/-- The keys of the first allocation round are exactly the configured symbols
that are present in the price map, in configuration order. -/
theorem firstRound_keys (b t : ℚ) (prices : List (String × ℚ)) :
    ∀ alloc : List (String × ℚ),
      (firstRound b t prices alloc).map Prod.fst
        = (alloc.filter (fun p => (lookup prices p.1).isSome)).map Prod.fst := by
  intro alloc
  induction alloc with
  | nil => rfl
  | cons q rest ih =>
    rw [firstRound]
    rcases q with ⟨symbol, ratio⟩
    cases h : lookup prices symbol with
    | some price =>
      rw [List.filter_cons]
      simp only [h, Option.isSome_some, if_pos]
      rw [List.map_cons, List.map_cons, ih]
    | none =>
      rw [List.filter_cons]
      simp only [h, Option.isSome_none, Bool.false_eq_true, if_neg]
      exact ih

/-- The keys of the crypto allocation are exactly the configured symbols that
are present in the price map, in configuration order. -/
theorem cryptoGo_keys (b : ℚ) (prices : List (String × ℚ)) :
    ∀ alloc : List (String × ℚ),
      (cryptoGo b prices alloc).map Prod.fst
        = (alloc.filter (fun p => (lookup prices p.1).isSome)).map Prod.fst := by
  intro alloc
  induction alloc with
  | nil => rfl
  | cons q rest ih =>
    rw [cryptoGo]
    rcases q with ⟨symbol, ratio⟩
    cases h : lookup prices symbol with
    | some price =>
      rw [List.filter_cons]
      simp only [h, Option.isSome_some, if_pos]
      rw [List.map_cons, List.map_cons, ih]
    | none =>
      rw [List.filter_cons]
      simp only [h, Option.isSome_none, Bool.false_eq_true, if_neg]
      exact ih

/-- Unique configured keys give unique keys in the first allocation round. -/
theorem firstRound_keys_nodup (b t : ℚ) (prices : List (String × ℚ))
    {alloc : List (String × ℚ)} (hnd : (alloc.map Prod.fst).Nodup) :
    ((firstRound b t prices alloc).map Prod.fst).Nodup := by
  rw [firstRound_keys]
  exact hnd.sublist (List.Sublist.map _ (List.filter_sublist _))

/-- Looking up a configured-and-priced symbol in the first allocation round
yields exactly the line of lines 74–87: shares are
`max 1 (round (budget * ratio / total_allocation / price))` and the amount is
shares times price.  Note the denominator `t` is whatever total the caller
passes (the source passes the sum of all configured ratios). -/
theorem firstRound_lookup (b t : ℚ) (prices : List (String × ℚ))
    {symbol : String} {ratio price : ℚ} :
    ∀ alloc : List (String × ℚ), (alloc.map Prod.fst).Nodup →
      (symbol, ratio) ∈ alloc → lookup prices symbol = some price →
      lookup (firstRound b t prices alloc) symbol
        = some ⟨(max 1 (pyRound (b * (ratio / t) / price))) * price, ratio, price,
                max 1 (pyRound (b * (ratio / t) / price))⟩ := by
  intro alloc
  induction alloc with
  | nil => intro _ hmem; cases hmem
  | cons q rest ih =>
    intro hnd hmem hprice
    rcases q with ⟨s0, r0⟩
    rw [List.map_cons, List.nodup_cons] at hnd
    rcases List.mem_cons.1 hmem with heq | hmem'
    · injection heq with h1 h2
      subst h1
      subst h2
      simp only [firstRound, hprice]
      unfold lookup
      rw [List.find?_cons_of_pos]
      · rfl
      · simp
    · by_cases hs : s0 = symbol
      · exfalso
        apply hnd.1
        subst hs
        exact List.mem_map.2 ⟨(s0, ratio), hmem', rfl⟩
      · cases h : lookup prices s0 with
        | some p0 =>
          simp only [firstRound, h]
          have hrec := ih hnd.2 hmem' hprice
          unfold lookup at hrec ⊢
          rw [List.find?_cons_of_neg]
          · exact hrec
          · simp [hs]
        | none =>
          simp only [firstRound, h]
          exact ih hnd.2 hmem' hprice

/-- A symbol whose history lookup raises is never emitted by the
crash-detection scan. -/
theorem detectGo_error_not_mem (config : Config) (history : HistoryBackend)
    {symbol : String} (e : Unit) (herr : history symbol = .error e) :
    ∀ l : List (String × ℚ),
      symbol ∉ (detectGo config history l).map Prod.fst := by
  intro l
  induction l with
  | nil => simp [detectGo]
  | cons q rest ih =>
    rcases q with ⟨s, cp⟩
    by_cases hs : s = symbol
    · subst hs
      have havg : get_average_price s cp history = none := by
        unfold get_average_price
        rw [herr]
      simp only [detectGo, havg]
      exact ih
    · cases h : get_average_price s cp history with
      | none =>
        simp only [detectGo, h]
        exact ih
      | some a =>
        simp only [detectGo, h]
        by_cases h1 : 0 < a
        · rw [if_pos h1]
          by_cases h2 : 0 < (determine_crash_level config.crash_detection
              ((a - cp) / a)).1
          · rw [if_pos h2]
            rw [List.map_cons]
            intro hmem
            rcases List.mem_cons.1 hmem with heq | hmem'
            · exact hs heq.symm
            · exact ih hmem'
          · rw [if_neg h2]
            exact ih
        · rw [if_neg h1]
          exact ih

/-- C1 counterexample: with symbol B configured in the stock allocation but
absent from the price map, `calculate_weekly_investment` does not fail at
all — it returns a partial plan whose equity lines cover only the priced
symbol A.  No `MissingPriceError` exists anywhere in the code. -/
theorem C1_counterexample :
    ("B" ∈ pf2.stock_allocation.map Prod.fst)
    ∧ lookup [(("A" : String), (100 : ℚ))] "B" = none
    ∧ (calculate_weekly_investment cfg2 [("A", 100)] [("BTC", 100)] 500).stocks.map
        Prod.fst = ["A"] := by
  decide

/-- C1 (amended): a configured symbol missing from the relevant price map is
silently skipped; the returned plan's equity and crypto lines are exactly the
configured symbols that are present in the respective price maps, in
configuration order, and no error is ever raised. -/
theorem C1_missing_symbols_skipped (config : Config)
    (stock_prices crypto_prices : List (String × ℚ)) (tao_price : ℚ) :
    (calculate_weekly_investment config stock_prices crypto_prices
          tao_price).stocks.map Prod.fst
        = (config.portfolio.stock_allocation.filter
            (fun p => (lookup stock_prices p.1).isSome)).map Prod.fst
    ∧ (calculate_weekly_investment config stock_prices crypto_prices
          tao_price).cryptos.map Prod.fst
        = (config.portfolio.crypto_allocation.filter
            (fun p => (lookup crypto_prices p.1).isSome)).map Prod.fst := by
  constructor
  · simp only [calculate_weekly_investment, calculate_stock_allocation]
    rw [loopFuel_keys, firstRound_keys]
  · simp only [calculate_weekly_investment, calculate_crypto_allocation]
    rw [cryptoGo_keys]

/-- C2: the returned `crypto_total` equals
`min (actualStockCost * (crypto_weight / stock_weight))
(weekly_tao_limit * conversionPrice)` where `actualStockCost` is the sum of
the equity line amounts; hence it never exceeds the TAO cap, and it equals
the proportional value whenever that value is below the cap. -/
theorem C2_crypto_total_capped (config : Config)
    (stock_prices crypto_prices : List (String × ℚ)) (tao_price : ℚ) :
    (calculate_weekly_investment config stock_prices crypto_prices
          tao_price).crypto_total
        = min (sumAmounts (calculate_weekly_investment config stock_prices
                  crypto_prices tao_price).stocks
                * (config.portfolio.crypto_weight / config.portfolio.stock_weight))
            (config.limits.weekly_tao_limit * tao_price)
    ∧ (calculate_weekly_investment config stock_prices crypto_prices
          tao_price).crypto_total
        ≤ config.limits.weekly_tao_limit * tao_price
    ∧ (sumAmounts (calculate_weekly_investment config stock_prices
              crypto_prices tao_price).stocks
            * (config.portfolio.crypto_weight / config.portfolio.stock_weight)
          < config.limits.weekly_tao_limit * tao_price
        → (calculate_weekly_investment config stock_prices crypto_prices
                tao_price).crypto_total
            = sumAmounts (calculate_weekly_investment config stock_prices
                  crypto_prices tao_price).stocks
                * (config.portfolio.crypto_weight / config.portfolio.stock_weight)) := by
  refine ⟨rfl, ?_, ?_⟩
  · show min _ _ ≤ _
    exact min_le_right _ _
  · intro h
    show min _ _ = _
    exact min_eq_left (le_of_lt h)

/-- C2 witness: in the concrete two-stock scenario the proportional value
2000/3 is below the 5000 cap, so `crypto_total` equals it exactly. -/
theorem C2_witness :
    sumAmounts (calculate_weekly_investment cfg2 [("A", 100)] [("BTC", 100)]
          500).stocks
        * (cfg2.portfolio.crypto_weight / cfg2.portfolio.stock_weight)
      < cfg2.limits.weekly_tao_limit * 500
    ∧ (calculate_weekly_investment cfg2 [("A", 100)] [("BTC", 100)]
          500).crypto_total
        = sumAmounts (calculate_weekly_investment cfg2 [("A", 100)]
              [("BTC", 100)] 500).stocks
            * (cfg2.portfolio.crypto_weight / cfg2.portfolio.stock_weight) :=
  ⟨by decide,
   (C2_crypto_total_capped cfg2 [("A", 100)] [("BTC", 100)] 500).2.2 (by decide)⟩

/-- C3 counterexample: one configured stock priced 10000, weekly limit 2000.
The price is positive and the budget positive, yet the single mandatory
share costs 10000, far above the 3000 overshoot cap — the bound claimed for
all valid configurations fails. -/
theorem C3_counterexample :
    lookup [(("A" : String), (10000 : ℚ))] "A" = some 10000
    ∧ (0 : ℚ) < 10000
    ∧ (0 : ℚ) < 2000
    ∧ sumAmounts (calculate_stock_allocation pf1 2000 [("A", 10000)]) = 10000
    ∧ ¬((10000 : ℚ) ≤ 2000 * 1.5) := by
  decide

/-- C3 (amended): for positive prices, unique configured symbols and a
positive budget, the equity sub-plan either meets the 1.5-times-budget bound
or is in the terminal state where every allocated line holds exactly one
share (the one-unit floor made the bound unachievable). -/
theorem C3_bound_or_all_one (portfolio : Portfolio) (budget : ℚ)
    (prices : List (String × ℚ))
    (hpos : ∀ q ∈ prices, 0 < q.2)
    (hnd : (portfolio.stock_allocation.map Prod.fst).Nodup)
    (hbudget : 0 < budget) :
    sumAmounts (calculate_stock_allocation portfolio budget prices)
        ≤ budget * 1.5
      ∨ ∀ p ∈ calculate_stock_allocation portfolio budget prices,
          p.2.shares = 1 := by
  simp only [calculate_stock_allocation]
  rcases loopFuel_exit (budget * 1.5)
      (sharesMeasure (firstRound budget (sumVals portfolio.stock_allocation)
        prices portfolio.stock_allocation) + 1)
      (firstRound budget (sumVals portfolio.stock_allocation) prices
        portfolio.stock_allocation)
      (Nat.lt_succ_self _) with h | h
  · exact Or.inl h
  · right
    intro p hp
    have h1 : p.2.shares ≤ 1 :=
      findMaxPriceSymbol_none h p hp
        (loopFuel_price_pos _ _ _
          (firstRound_price_pos _ _ _ hpos _) p hp)
    have h2 : 1 ≤ p.2.shares :=
      loopFuel_shares_ge_one _ _ _
        (firstRound_keys_nodup _ _ _ hnd)
        (firstRound_shares_ge_one _ _ _ _) p hp
    omega

/-- C3 witness: on the spec's worked example the total is 1866, within the
3000 cap. -/
theorem C3_witness :
    sumAmounts (calculate_stock_allocation pfEx 2000 stockPricesEx)
      ≤ 2000 * 1.5 := by
  rcases C3_bound_or_all_one pfEx 2000 stockPricesEx (by decide) (by decide)
      (by decide) with h | h
  · exact h
  · decide

/-- C4: contrary to the claim (and to the spec's edge case), an all-zero
portfolio with a positive weekly budget makes
`calculate_rebalancing_adjustment` divide by zero at line 155: the guard
checks `total_portfolio_value > 0` (which includes the budget) but the
division is by `total_portfolio_value - weekly_budget`, which is 0. -/
theorem C4_rebalancing_divzero :
    calculate_rebalancing_adjustment [("QQQ", 0)] [("QQQ", 1)] 100
      = Except.error "ZeroDivisionError" := by
  rfl

/-- C5 counterexample: with a history backend that raises, the BTC symbol is
silently dropped from crash detection (empty result), whereas the same call
with a no-data backend evaluates BTC through the 1.15 synthetic-peak
fallback and reports it. -/
theorem C5_counterexample :
    get_average_price "BTC" 100 histErr = none
    ∧ detect_crash_opportunities cfgEx [("BTC", 100)] histErr = []
    ∧ (detect_crash_opportunities cfgEx [("BTC", 100)] histNone).map Prod.fst
        = ["BTC"] := by
  decide

/-- C5 (amended): a history lookup that returns no data degrades to the
synthetic-peak fallback `currentPrice * 1.15`, but a history lookup that
raises makes `_get_average_price` return `None` and the symbol is dropped
from crash detection entirely. -/
theorem C5_fallback_unless_error (symbol : String) (current_price : ℚ)
    (history : HistoryBackend) :
    (history symbol = Except.ok none →
      get_average_price symbol current_price history
        = some (current_price * 1.15))
    ∧ (∀ e : Unit, history symbol = Except.error e →
        ∀ (config : Config) (prices : List (String × ℚ)),
          symbol ∉ (detect_crash_opportunities config prices history).map
            Prod.fst) := by
  constructor
  · intro h
    unfold get_average_price
    rw [h]
  · intro e herr config prices
    simp only [detect_crash_opportunities]
    exact detectGo_error_not_mem config history e herr prices

/-- C5 witness: the no-data backend gives BTC the synthetic peak 115, and the
raising backend drops BTC from the scan. -/
theorem C5_witness :
    get_average_price "BTC" 100 histNone = some (100 * 1.15)
    ∧ "BTC" ∉ (detect_crash_opportunities cfgEx [("BTC", 100)] histErr).map
        Prod.fst :=
  ⟨(C5_fallback_unless_error "BTC" 100 histNone).1 rfl,
   (C5_fallback_unless_error "BTC" 100 histErr).2 () rfl cfgEx [("BTC", 100)]⟩

/-- C6 counterexample: the weekly budget used for the crypto symbol BTC is
`weekly_tao_limit * 500` with 500 hard-coded (here 10 × 500 = 5000, and the
emitted base amount is 5000 × 0.16 = 800); for a supplied conversion price of
300 the claimed value `weekly_tao_limit * conversionPrice` = 3000 differs.
`detect_crash_opportunities` takes no conversion-price argument at all. -/
theorem C6_counterexample :
    (detect_crash_opportunities cfgEx [("BTC", 100)] histNone).map
        (fun p => p.2.base_amount) = [800]
    ∧ get_weekly_budget cfgEx.limits "BTC" = 5000
    ∧ get_weekly_budget cfgEx.limits "BTC"
        = cfgEx.limits.weekly_tao_limit * 500
    ∧ cfgEx.limits.weekly_tao_limit * 300 ≠ get_weekly_budget cfgEx.limits "BTC" := by
  decide

/-- C6 (amended): for every non-equity symbol the weekly budget is
`weekly_tao_limit * 500`, a hard-coded assumed TAO price, independent of any
conversion price supplied elsewhere in the calculation. -/
theorem C6_budget_hardcoded_500 (limits : Limits) (symbol : String)
    (h : symbol ∉ stockSymbols) :
    get_weekly_budget limits symbol = limits.weekly_tao_limit * 500 := by
  unfold get_weekly_budget
  rw [if_neg h]

/-- C6 witness: the example limits give BTC the budget 10 × 500 = 5000. -/
theorem C6_witness :
    get_weekly_budget limitsEx "BTC" = limitsEx.weekly_tao_limit * 500 :=
  C6_budget_hardcoded_500 limitsEx "BTC" (by decide)

/-- C7 counterexample: with ratios A:0.5, B:0.5 and only A priced, the code
allocates A 5 shares (500), because it divides by the sum of ALL configured
ratios (1.0); the claimed priced-only denominator (0.5) would give 10
shares. -/
theorem C7_counterexample :
    calculate_stock_allocation pf2 1000 [("A", 100)]
        = [("A", { amount := 500, ratio := 1/2, price := 100, shares := 5 })]
    ∧ ratioSumPriced pf2.stock_allocation [("A", 100)] = 1/2
    ∧ max 1 (pyRound ((1000 * ((1/2) /
          ratioSumPriced pf2.stock_allocation [("A", 100)])) / 100)) = 10
    ∧ (5 : ℤ) ≠ 10 := by
  decide

/-- C7 (amended): each priced symbol's first-round line uses the target
amount `budget * (ratio / sumVals stock_allocation)`, where the normalizing
denominator is the sum of ALL configured ratios, including those of symbols
absent from the price map. -/
theorem C7_denominator_all_ratios (portfolio : Portfolio) (budget : ℚ)
    (prices : List (String × ℚ)) {symbol : String} {ratio price : ℚ}
    (hnd : (portfolio.stock_allocation.map Prod.fst).Nodup)
    (hmem : (symbol, ratio) ∈ portfolio.stock_allocation)
    (hprice : lookup prices symbol = some price) :
    lookup (firstRound budget (sumVals portfolio.stock_allocation) prices
        portfolio.stock_allocation) symbol
      = some ⟨(max 1 (pyRound (budget *
                (ratio / sumVals portfolio.stock_allocation) / price))) * price,
              ratio, price,
              max 1 (pyRound (budget *
                (ratio / sumVals portfolio.stock_allocation) / price))⟩ :=
  firstRound_lookup budget (sumVals portfolio.stock_allocation) prices
    portfolio.stock_allocation hnd hmem hprice

/-- C7 witness: the counterexample scenario instantiated through the amended
theorem — symbol A gets `max 1 (round (1000 * (0.5 / 1) / 100)) = 5`
shares. -/
theorem C7_witness :
    lookup (firstRound 1000 (sumVals pf2.stock_allocation) [("A", 100)]
        pf2.stock_allocation) "A"
      = some ⟨(max 1 (pyRound (1000 *
                ((1/2) / sumVals pf2.stock_allocation) / 100))) * 100,
              1/2, 100,
              max 1 (pyRound (1000 *
                ((1/2) / sumVals pf2.stock_allocation) / 100))⟩ :=
  C7_denominator_all_ratios pf2 1000 [("A", 100)] (by decide) (by decide)
    (by decide)

/-- C8: for ascending thresholds the crash tier is monotone in the drop, and
the spec example 0.21 against thresholds 0.10/0.20/0.30 yields tier 2 with
multiplier 2.0. -/
theorem C8_tier_monotone (cc : CrashConfig)
    (h1 : cc.level1_threshold ≤ cc.level2_threshold)
    (h2 : cc.level2_threshold ≤ cc.level3_threshold)
    (d1 d2 : ℚ) (hd : d2 ≤ d1) :
    (determine_crash_level cc d2).1 ≤ (determine_crash_level cc d1).1
    ∧ determine_crash_level ccEx (21/100) = (2, 2) := by
  constructor
  · unfold determine_crash_level
    split_ifs <;> simp_all <;> linarith
  · decide

/-- C8 witness: a zero drop gets a tier no higher than a 21 percent drop,
which is classified tier 2 with multiplier 2. -/
theorem C8_witness :
    (determine_crash_level ccEx 0).1 ≤ (determine_crash_level ccEx (21/100)).1
    ∧ determine_crash_level ccEx (21/100) = (2, 2) :=
  C8_tier_monotone ccEx (by decide) (by decide) (21/100) 0 (by decide)

/-- C9: with unique configured symbols, every line of the equity sub-plan
holds at least one share: the initial `max 1 (round …)` floor and the
overflow loop (which only decrements lines above one share) preserve it. -/
theorem C9_units_ge_one (portfolio : Portfolio) (budget : ℚ)
    (prices : List (String × ℚ))
    (hnd : (portfolio.stock_allocation.map Prod.fst).Nodup) :
    ∀ p ∈ calculate_stock_allocation portfolio budget prices,
      1 ≤ p.2.shares := by
  simp only [calculate_stock_allocation]
  exact loopFuel_shares_ge_one _ _ _
    (firstRound_keys_nodup _ _ _ hnd)
    (firstRound_shares_ge_one _ _ _ _)

/-- C9 witness: in the spec worked example the QQQ line (3 shares) is a plan
member, so it holds at least one share. -/
theorem C9_witness :
    1 ≤ (("QQQ", ({ amount := 1050, ratio := 1/2, price := 350, shares := 3 } :
        StockLine)) : String × StockLine).2.shares :=
  C9_units_ge_one pfEx 2000 stockPricesEx (by decide) _ (by decide)

/-- C10: the overflow-correction loop always terminates: every productive
iteration (one that found a symbol with more than one share) strictly
decreases the total share count, and under positive prices and unique keys
the loop exits either within the overshoot cap or in the terminal state
where every line holds exactly one share. -/
theorem C10_loop_terminates (mb : ℚ) (inv : List (String × StockLine))
    (hnd : (inv.map Prod.fst).Nodup)
    (hge : ∀ p ∈ inv, 1 ≤ p.2.shares)
    (hpr : ∀ p ∈ inv, 0 < p.2.price) :
    (∀ s : String, findMaxPriceSymbol inv = some s →
        sharesMeasure (decrementSymbol inv s) < sharesMeasure inv)
    ∧ (sumAmounts (loopFuel mb (sharesMeasure inv + 1) inv) ≤ mb
        ∨ ∀ p ∈ loopFuel mb (sharesMeasure inv + 1) inv, p.2.shares = 1) := by
  constructor
  · intro s hs
    exact sharesMeasure_decrement_lt (findMaxPriceSymbol_mem hs)
  · rcases loopFuel_exit mb (sharesMeasure inv + 1) inv (Nat.lt_succ_self _)
        with h | h
    · exact Or.inl h
    · right
      intro p hp
      have h1 := findMaxPriceSymbol_none h p hp
        (loopFuel_price_pos _ _ inv hpr p hp)
      have h2 := loopFuel_shares_ge_one _ _ inv hnd hge p hp
      omega

/-- C10 witness: in the concrete state where X holds 3 shares at price 300,
the loop's selected decrement of X strictly decreases the total share
count. -/
theorem C10_witness :
    sharesMeasure (decrementSymbol invC10 "X") < sharesMeasure invC10 :=
  (C10_loop_terminates 500 invC10 (by decide) (by decide) (by decide)).1 "X"
    (by decide)

end SmartDCA
